import Mathlib

/-!
Verification of the abstract-value lattice, trace stack, partial evaluation,
control flow, and batching machinery of the vendored jax snapshot, together
with the bundled pyth document reader/writer plugins.

All definitions are shallow embeddings of the Python source:
* `jax/core.py` — abstract values (`UnshapedArray`, `ShapedArray`,
  `ConcreteArray`, …), `lattice_join`, `join_named_shapes`, `TraceStack`.
* `jax/interpreters/partial_eval.py` — `PartialVal`.
* `jax/interpreters/batching.py` — `matchaxis`.
* `jax/_src/lax/control_flow.py` — `fori_loop`.
* `pyth/plugins/plaintext/writer.py` — `PlaintextWriter`.
* `pyth/plugins/python/reader.py` — `PythonReader`, `_PythonBase`.
-/

set_option autoImplicit false

namespace JaxModel

/-- Python exception kinds the modelled code can raise.  Only the exception
class is observable for the claims; messages are not modelled. -/
inductive PyErr where
  | typeError
  | notImplementedError
  | assertionError
  | attributeError
  | indexError
  | valueError
  deriving DecidableEq, Repr

/-- numpy dtypes, already canonical unless noted.  Equality of `np.dtype`
objects is equality of this enum. -/
inductive Dtype where
  | f32 | f64 | i32 | i64 | b1
  deriving DecidableEq, Repr

/-- A named shape: a Python `dict` mapping axis names to sizes, modelled as an
insertion-ordered association list (Python dicts preserve insertion order and
have unique keys). -/
abbrev NamedShape := List (Nat × Nat)

/-- First-occurrence lookup in an association list (the value a Python dict
would hold once keys are unique). -/
def nsLookup (l : NamedShape) (k : Nat) : Option Nat :=
  (l.find? (fun kv => kv.1 = k)).map (fun kv => kv.2)

/-- The loop body of `join_named_shapes` (jax/core.py): iterate over all
entries of all input dicts, `setdefault` each name and raise `TypeError` on an
inconsistent size. -/
def nsJoinGo : List (Nat × Nat) → NamedShape → Except PyErr NamedShape
  | [], acc => .ok acc
  | (k, v) :: rest, acc =>
    match nsLookup acc k with
    | none => nsJoinGo rest (acc ++ [(k, v)])
    | some v' => if v' = v then nsJoinGo rest acc else .error .typeError

/-- `join_named_shapes(a, b)` from jax/core.py, for two dicts. -/
def join_named_shapes (a b : NamedShape) : Except PyErr NamedShape :=
  nsJoinGo (a ++ b) []

/-- Python dict equality: the two maps associate the same value to every key
(insertion order is ignored by `==`). -/
def dictEq (a b : NamedShape) : Bool :=
  a.all (fun kv => nsLookup b kv.1 = some kv.2) &&
  b.all (fun kv => nsLookup a kv.1 = some kv.2)

/-- One element of a numpy array: either NaN — which compares unequal to
everything under `==`, itself included — or an ordinary value. -/
inductive Elem where
  | nan
  | num (v : Int)
  deriving DecidableEq, Repr

/-- numpy elementwise `==` on two array elements: `False` whenever either
side is NaN, ordinary equality otherwise. -/
def elemEq : Elem → Elem → Bool
  | .nan, _ => false
  | _, .nan => false
  | .num a, .num b => a = b

/-- `(x == y).all()` on the flattened data of two same-shape arrays:
elementwise numpy `==` must hold at every position. -/
def dataEq (a b : List Elem) : Bool :=
  a.length = b.length && (a.zip b).all (fun p => elemEq p.1 p.2)

/-- A concrete numpy array value: its shape and row-major flattened data. -/
structure ConcreteVal where
  shape : List Nat
  data : List Elem
  deriving DecidableEq, Repr

/-- No element of the data is NaN, so numpy `(val == val).all()` holds. -/
def ConcreteVal.noNaN (v : ConcreteVal) : Prop := ∀ e ∈ v.data, e ≠ Elem.nan

instance (v : ConcreteVal) : Decidable v.noNaN :=
  inferInstanceAs (Decidable (∀ e ∈ v.data, e ≠ Elem.nan))

/-- The abstract values of jax/core.py that participate in the lattice:
`Bot`, `AbstractUnit`, `AbstractToken` and the array hierarchy
`UnshapedArray` / `DShapedArray` / `ShapedArray` / `ConcreteArray`.
A `ConcreteArray`'s shape is `np.shape(val)` and its named shape is `{}`,
both fixed by its constructor. -/
inductive Aval where
  | bot
  | unit
  | token
  | unshaped (dtype : Dtype) (weak : Bool)
  | dshaped (shape : List Nat) (dtype : Dtype) (weak : Bool)
  | shaped (shape : List Nat) (dtype : Dtype) (weak : Bool) (named : NamedShape)
  | concrete (dtype : Dtype) (val : ConcreteVal) (weak : Bool)
  deriving DecidableEq, Repr

namespace Aval

/-- The Python classes of the modelled abstract values. -/
inductive Cls where
  | bot | unit | token | unshapedArray | dshapedArray | shapedArray | concreteArray
  deriving DecidableEq, Repr

/-- `type(x)` for an abstract value. -/
def cls : Aval → Cls
  | .bot => .bot
  | .unit => .unit
  | .token => .token
  | .unshaped _ _ => .unshapedArray
  | .dshaped _ _ _ => .dshapedArray
  | .shaped _ _ _ _ => .shapedArray
  | .concrete _ _ _ => .concreteArray

/-- The subclass relation between those classes:
`ConcreteArray < ShapedArray < UnshapedArray`, `DShapedArray < UnshapedArray`,
everything ≤ itself. -/
def subclass : Cls → Cls → Bool
  | c, d =>
    c = d ||
    (c = .shapedArray && d = .unshapedArray) ||
    (c = .concreteArray && d = .shapedArray) ||
    (c = .concreteArray && d = .unshapedArray) ||
    (c = .dshapedArray && d = .unshapedArray)

/-- `isinstance(x, type(y))`. -/
def isinst (x y : Aval) : Bool := subclass x.cls y.cls

/-- `symbolic_equal_shape` (jax/core.py): with plain `int` dimensions,
per-dimension `symbolic_equal_dim` is integer equality. -/
def symbolic_equal_shape (s1 s2 : List Nat) : Bool := s1 == s2

/-- `dtype` attribute of an abstract value (absent on `Bot`, `AbstractUnit`,
`AbstractToken`, where attribute access would raise). -/
def dtype? : Aval → Option Dtype
  | .unshaped d _ => some d
  | .dshaped _ d _ => some d
  | .shaped _ d _ _ => some d
  | .concrete d _ _ => some d
  | _ => none

/-- `weak_type` attribute. -/
def weak? : Aval → Option Bool
  | .unshaped _ w => some w
  | .dshaped _ _ w => some w
  | .shaped _ _ w _ => some w
  | .concrete _ _ w => some w
  | _ => none

/-- `shape` attribute (defined on `DShapedArray`, `ShapedArray`,
`ConcreteArray`; raises on `UnshapedArray`). -/
def shape? : Aval → Option (List Nat)
  | .dshaped s _ _ => some s
  | .shaped s _ _ _ => some s
  | .concrete _ v _ => some v.shape
  | _ => none

/-- `named_shape` attribute (`ShapedArray` stores it; a `ConcreteArray`'s is
always `{}`). -/
def named? : Aval → Option NamedShape
  | .shaped _ _ _ n => some n
  | .concrete _ _ _ => some []
  | _ => none

/-- Python `==` on abstract values.  Each `__eq__` first requires
`type(self) is type(other)`, then compares the fields; `ShapedArray` compares
`named_shape` by dict equality; `ConcreteArray` compares values. -/
def eqv : Aval → Aval → Bool
  | .bot, .bot => true
  | .unit, .unit => true
  | .token, .token => true
  | .unshaped d1 w1, .unshaped d2 w2 => d1 = d2 && w1 = w2
  | .dshaped s1 d1 w1, .dshaped s2 d2 w2 => d1 = d2 && s1 = s2 && w1 = w2
  | .shaped s1 d1 w1 n1, .shaped s2 d2 w2 n2 =>
    d1 = d2 && s1 = s2 && w1 = w2 && dictEq n1 n2
  | .concrete d1 v1 w1, .concrete d2 v2 w2 =>
    d1 = d2 && v1.shape = v2.shape && w1 = w2 && dataEq v1.data v2.data
  | _, _ => false

/-- `UnshapedArray.join` (jax/core.py), also inherited by `DShapedArray`:
`self` is passed explicitly so `return self` can return the actual receiver.
Accessing `other.dtype` on a value without that attribute would raise
`AttributeError` (unreachable from `lattice_join`'s dispatch). -/
def unshapedJoin (self : Aval) (d : Dtype) (w : Bool) (other : Aval) : Except PyErr Aval :=
  match other.dtype?, other.weak? with
  | some d2, some w2 =>
    if d = d2 then
      (if w = w2 then .ok self else .ok (.unshaped d false))
    else .error .typeError
  | _, _ => .error .attributeError

/-- `ShapedArray.join` (jax/core.py).  `self.update(weak_type=…,
named_shape=…)` keeps `self`'s shape and dtype; the second branch returns
`UnshapedArray(self.dtype)` whose `weak_type` defaults to `False`.
A shapeless `other` would raise before any branch is taken (unreachable from
`lattice_join`'s dispatch). -/
def shapedJoin (s : List Nat) (d : Dtype) (w : Bool) (n : NamedShape) (other : Aval) :
    Except PyErr Aval :=
  match other.shape?, other.dtype?, other.weak?, other.named? with
  | some s2, some d2, some w2, some n2 =>
    if symbolic_equal_shape s s2 && d = d2 then
      match join_named_shapes n n2 with
      | .error e => .error e
      | .ok nj => .ok (.shaped s d (w && w2) nj)
    else if d = d2 then .ok (.unshaped d false)
    else .error .typeError
  | _, _, _, _ => .error .attributeError

/-- `ConcreteArray.join` (jax/core.py).  Its `named_shape` is always `{}`,
and the first branch compares with Python `==`. -/
def concreteJoin (self : Aval) (d : Dtype) (v : ConcreteVal) (w : Bool) (other : Aval) :
    Except PyErr Aval :=
  if eqv self other then .ok self
  else
    match other.shape?, other.dtype?, other.weak?, other.named? with
    | some s2, some d2, some w2, some n2 =>
      if v.shape = s2 && d = d2 then
        match join_named_shapes [] n2 with
        | .error e => .error e
        | .ok nj => .ok (.shaped v.shape d (w && w2) nj)
      else if d = d2 then .ok (.unshaped d (w && w2))
      else .error .typeError
    | _, _, _, _ => .error .attributeError

/-- `self.join(other)`: dynamic dispatch on `self`'s class.
`Bot` inherits `AbstractValue.join`, which raises `NotImplementedError`;
`AbstractUnit.join` returns `self` (its `assert` only runs under
`config.jax_enable_checks`, which defaults to off); `AbstractToken.join`
asserts the other side is a token. -/
def join (self other : Aval) : Except PyErr Aval :=
  match self with
  | .bot => .error .notImplementedError
  | .unit => .ok .unit
  | .token => if other.cls = .token then .ok .token else .error .assertionError
  | .unshaped d w => unshapedJoin self d w other
  | .dshaped _ d w => unshapedJoin self d w other
  | .shaped s d w n => shapedJoin s d w n other
  | .concrete d v w => concreteJoin self d v w other

end Aval

/-- `lattice_join` (jax/core.py): `None` is passed through, otherwise the
more abstract side's `join` method is called on the other value, and
incomparable classes raise `TypeError`. -/
def lattice_join : Option Aval → Option Aval → Except PyErr (Option Aval)
  | none, y => .ok y
  | some x, none => .ok (some x)
  | some x, some y =>
    if Aval.isinst x y then (Aval.join y x).map some
    else if Aval.isinst y x then (Aval.join x y).map some
    else .error .typeError

/-- Python `==` lifted to `Optional[AbstractValue]` and to the outcome of a
call that may raise: two outcomes are indistinguishable when both return
values equal under `==`, or both raise the same exception class. -/
def joinResEq : Except PyErr (Option Aval) → Except PyErr (Option Aval) → Prop
  | .ok (some a), .ok (some b) => Aval.eqv a b
  | .ok none, .ok none => True
  | .error e1, .error e2 => e1 = e2
  | _, _ => False

/-! ### TraceStack (jax/core.py) -/

/-- The `Trace` subclasses a `MainTrace` can carry (only the constructor
identity matters for the stack). -/
inductive TraceType where
  | EvalTrace | JaxprTrace | BatchTrace
  deriving DecidableEq, Repr

/-- `MainTrace`: a level, a trace type, and the `**payload` kwargs dict. -/
structure MainTrace where
  level : Nat
  trace_type : TraceType
  payload : List (Nat × Nat)
  deriving DecidableEq, Repr

/-- `TraceStack`: the interpreter stack and the dynamic trace. -/
structure TraceStack where
  stack : List MainTrace
  dynamic : MainTrace
  deriving DecidableEq, Repr

/-- `TraceStack.__init__`: one `MainTrace(0, EvalTrace)`, also dynamic. -/
def TraceStack.new : TraceStack :=
  let eval_trace : MainTrace := ⟨0, .EvalTrace, []⟩
  ⟨[eval_trace], eval_trace⟩

/-- `TraceStack.next_level`. -/
def TraceStack.next_level (ts : TraceStack) : Nat := ts.stack.length

/-- `TraceStack.push`: Python `list.append` adds at the end. -/
def TraceStack.push (ts : TraceStack) (m : MainTrace) : TraceStack :=
  { ts with stack := ts.stack ++ [m] }

/-- `TraceStack.pop`: Python `list.pop` removes the last element. -/
def TraceStack.pop (ts : TraceStack) : TraceStack :=
  { ts with stack := ts.stack.dropLast }

/-! ### PartialVal (jax/interpreters/partial_eval.py) -/

/-- A concrete constant together with its (canonical) dtype and weak-type
flag, as `get_aval` would see it. -/
structure ArrConst where
  val : ConcreteVal
  dtype : Dtype
  weak : Bool
  deriving DecidableEq, Repr

/-- A value a `PartialVal` can store in its constant slot: `core.unit` or a
concrete constant.  (Python `None` is not a valid jaxtype and is excluded by
the constructor's invariant checks.) -/
inductive ConstV where
  | unit
  | arr (c : ArrConst)
  deriving DecidableEq, Repr

/-- `core.get_aval` on a stored constant: `core.unit` has aval
`abstract_unit`; a concrete value has a `ConcreteArray` aval. -/
def constAval : ConstV → Aval
  | .unit => .unit
  | .arr c => .concrete c.dtype c.val c.weak

/-- `PartialVal`: the pair `(aval_opt, const)`. -/
structure PartialVal where
  pv : Option Aval
  const : ConstV
  deriving DecidableEq, Repr

/-- `PartialVal.known(const) = PartialVal((None, const))`. -/
def PartialVal.known (c : ConstV) : PartialVal := ⟨none, c⟩

/-- `PartialVal.unknown(aval) = PartialVal((aval, core.unit))`. -/
def PartialVal.unknown (a : Aval) : PartialVal := ⟨some a, .unit⟩

/-- `PartialVal.is_known`: `self[0] is None`. -/
def PartialVal.is_known (p : PartialVal) : Bool := p.pv.isNone

/-- `PartialVal.get_known`: `self[1] if self[0] is None else None`.
`none` models the Python `None` return. -/
def PartialVal.get_known (p : PartialVal) : Option ConstV :=
  if p.pv.isNone then some p.const else none

/-- `PartialVal.get_aval`: the aval of the constant when known, else the
stored abstract value. -/
def PartialVal.get_aval (p : PartialVal) : Option Aval :=
  match p.get_known with
  | some k => some (constAval k)
  | none => p.pv

/-- `PartialVal.merge_with_known`: the stored known value, or the given one. -/
def PartialVal.merge_with_known (p : PartialVal) (v : ConstV) : ConstV :=
  match p.get_known with
  | some k => k
  | none => v

/-! ### fori_loop (jax/_src/lax/control_flow.py) -/

/-- Modelled from the spec: `dtypes.canonicalize_dtype` (jax/dtypes.py is not
under src/).  With 64-bit mode disabled (the default) it maps 64-bit dtypes
to their 32-bit counterparts and leaves the others unchanged. -/
def canonicalize_dtype : Dtype → Dtype
  | .f64 => .f32
  | .i64 => .i32
  | d => d

/-- A scalar integer argument of `fori_loop`, carrying the dtype that
`lax.dtype` reports for it. -/
structure TypedInt where
  dtype : Dtype
  val : Int
  deriving DecidableEq, Repr

/-- `_fori_cond_fun`: `lax.lt(i, upper)` on the loop carry. -/
def fori_cond_fun {α : Type} (carry : Int × Int × α) : Bool :=
  decide (carry.1 < carry.2.1)

/-- `_fori_body_fun(body_fun)`: `(i, upper, x) ↦ (i + 1, upper, body_fun(i, x))`. -/
def fori_body_fun {α : Type} (body : Int → α → α) (carry : Int × Int × α) : Int × Int × α :=
  (carry.1 + 1, carry.2.1, body carry.1 carry.2.2)

/-- `_fori_scan_body_fun(body_fun)`: `((i, x), _) ↦ ((i + 1, body_fun(i, x)), None)`. -/
def fori_scan_body_fun {α : Type} (body : Int → α → α) (carry : Int × α) :
    (Int × α) × Option Unit :=
  ((carry.1 + 1, body carry.1 carry.2), none)

/-- Sequential semantics of `while_loop`, as given by its docstring in
control_flow.py (`val = init_val; while cond_fun(val): val = body_fun(val)`),
indexed by an iteration budget: `none` means the budget did not cover every
iteration. -/
def while_loop_sem {σ : Type} (cond : σ → Bool) (body : σ → σ) : Nat → σ → Option σ
  | 0, s => if cond s then none else some s
  | fuel + 1, s => if cond s then while_loop_sem cond body fuel (body s) else some s

/-- Carry component of the sequential semantics of `scan`, as given by its
docstring in control_flow.py, scanning over `xs = None` with the given
`length` (so the scanned function only sees the carry). -/
def scan_carry_sem {γ β : Type} (f : γ → γ × Option β) : Nat → γ → γ
  | 0, c => c
  | n + 1, c => scan_carry_sem f n (f c).1

/-- `fori_loop` (control_flow.py).  `use_scan` abstracts whether the avals of
`lower` and `upper` are `ConcreteArray`s (the scan path) or not (the
while_loop path); `disable_jit` models `config.jax_disable_jit`.  The scan
path runs `_fori_scan_body_fun` for `upper - lower` steps and keeps the
second carry component; the while path runs `_fori_body_fun` under
`_fori_cond_fun` from `(lower, upper, init_val)` and keeps the third.  The
while path is given the budget `(upper - lower).toNat`, which covers every
iteration, so its `none` case is unreachable. -/
def fori_loop {α : Type} (disable_jit use_scan : Bool) (lower upper : TypedInt)
    (body : Int → α → α) (init : α) : Except PyErr α :=
  let lower_dtype := canonicalize_dtype lower.dtype
  let upper_dtype := canonicalize_dtype upper.dtype
  if lower_dtype ≠ upper_dtype then .error .typeError
  else if use_scan then
    if disable_jit && lower.val == upper.val then .ok init
    else
      let final := scan_carry_sem (fori_scan_body_fun body)
        (upper.val - lower.val).toNat (lower.val, init)
      .ok final.2
  else
    match while_loop_sem fori_cond_fun (fori_body_fun body)
        (upper.val - lower.val).toNat (lower.val, upper.val, init) with
    | some carry => .ok carry.2.2
    | none => .error .valueError

/-- The Python reference loop from `fori_loop`'s docstring:
`val = init_val; for i in range(lower, upper): val = body_fun(i, val)`. -/
def fori_ref_go {α : Type} (body : Int → α → α) : Nat → Int → α → α
  | 0, _, v => v
  | n + 1, i, v => fori_ref_go body n (i + 1) (body i v)

/-- `fori_loop_ref lower upper body init` is the sequential reference result. -/
def fori_loop_ref {α : Type} (lower upper : Int) (body : Int → α → α) (init : α) : α :=
  fori_ref_go body (upper - lower).toNat lower init

/-! ### matchaxis (jax/interpreters/batching.py) -/

/-- An n-dimensional array: a shape and an element function on index lists
(only indices valid for the shape are meaningful). -/
structure NDArray (α : Type) where
  shape : List Nat
  elt : List Nat → α

/-- Insert an element at a position (clamping to the end, as `list.insert`
and axis insertion do). -/
def insertAt {β : Type} : Nat → β → List β → List β
  | 0, a, l => a :: l
  | _ + 1, a, [] => [a]
  | n + 1, a, x :: l => x :: insertAt n a l

/-- Remove the element at a position (identity when out of range). -/
def removeAt {β : Type} : Nat → List β → List β
  | _, [] => []
  | 0, _ :: l => l
  | n + 1, x :: l => x :: removeAt n l

/-- Modelled from the spec: `moveaxis` from jax/_src/util.py is not under
src/; it moves axis `src` of an array to position `dst`, keeping the other
axes in order (NumPy `moveaxis` semantics, for canonical non-negative axis
positions). -/
def moveaxis {α : Type} (x : NDArray α) (src dst : Nat) : NDArray α :=
  if src = dst then x
  else
    { shape := insertAt dst (x.shape.getD src 0) (removeAt src x.shape),
      elt := fun idx => x.elt (insertAt src (idx.getD dst 0) (removeAt dst idx)) }

/-- `broadcast` (batching.py): insert a new axis of size `sz` at `axis` via
`broadcast_in_dim`, whose broadcast dimensions are all positions except
`axis`; every element along the new axis reads the source element. -/
def broadcast {α : Type} (x : NDArray α) (sz : Nat) (axis : Nat) : NDArray α :=
  { shape := insertAt axis sz x.shape,
    elt := fun idx => x.elt (removeAt axis idx) }

/-- `batching.not_mapped` is `None`: a batching axis is `Option Nat` (a
canonical non-negative position or not mapped). -/
def not_mapped : Option Nat := none

/-- `matchaxis` (batching.py) on array data with canonical non-negative axis
positions and `sum_match=False`: equal axes return `x` itself, two integer
axes move `src` to `dst`, an unmapped source broadcasts, and a mapped source
with unmapped destination raises `ValueError` (negative-axis
canonicalization and the abstract-unit shortcut fall outside this model;
the claim's inputs are arrays with valid non-negative axes). -/
def matchaxis {α : Type} (sz : Nat) (src dst : Option Nat) (x : NDArray α) :
    Except PyErr (NDArray α) :=
  if src = dst then .ok x
  else
    match src, dst with
    | some s, some d => .ok (moveaxis x s d)
    | none, some d => .ok (broadcast x sz d)
    | _, none => .error .valueError

/-- A valid index for a shape: componentwise within bounds (and of the same
length). -/
def validIdx (shape idx : List Nat) : Prop :=
  List.Forall₂ (fun i s => i < s) idx shape

/-- Extensional equality of arrays: same shape, same elements at every valid
index. -/
def arrEq {α : Type} (x y : NDArray α) : Prop :=
  x.shape = y.shape ∧ ∀ idx, validIdx x.shape idx → x.elt idx = y.elt idx

/-- Membership in the three array abstract-value classes the lattice claim
ranges over. -/
def Aval.isUSC : Aval → Bool
  | .unshaped _ _ => true
  | .shaped _ _ _ _ => true
  | .concrete _ _ _ => true
  | _ => false

/-- The keys of an association list are pairwise distinct — the invariant
every Python dict satisfies by construction. -/
abbrev NodupKeys (l : List (Nat × Nat)) : Prop := (l.map Prod.fst).Nodup

/-- Wellformedness of an abstract value as built by the Python code: its
named shape, being a dict, has distinct keys. -/
def Aval.WFnamed : Aval → Prop
  | .shaped _ _ _ n => NodupKeys n
  | _ => True

instance (a : Aval) : Decidable a.WFnamed :=
  match a with
  | .shaped _ _ _ n => (inferInstance : Decidable (NodupKeys n))
  | .bot => .isTrue trivial
  | .unit => .isTrue trivial
  | .token => .isTrue trivial
  | .unshaped _ _ => .isTrue trivial
  | .dshaped _ _ _ => .isTrue trivial
  | .concrete _ _ _ => .isTrue trivial

/-- The value of a `ConcreteArray` contains no NaN (vacuously true for the
other abstract values): exactly when numpy `(val == val).all()` holds, i.e.
when Python `x == x` is `True`. -/
def Aval.noNaN : Aval → Prop
  | .concrete _ v _ => v.noNaN
  | _ => True

instance (a : Aval) : Decidable a.noNaN :=
  match a with
  | .concrete _ v _ => (inferInstance : Decidable v.noNaN)
  | .bot => .isTrue trivial
  | .unit => .isTrue trivial
  | .token => .isTrue trivial
  | .unshaped _ _ => .isTrue trivial
  | .dshaped _ _ _ => .isTrue trivial
  | .shaped _ _ _ _ => .isTrue trivial

/-- No key occurs with two different values anywhere in the list: exactly the
condition under which `join_named_shapes` succeeds. -/
def nsCompat (l : List (Nat × Nat)) : Prop :=
  ∀ k v v', (k, v) ∈ l → (k, v') ∈ l → v = v'

end JaxModel

namespace PythModel

/-! ### PlaintextWriter (pyth/plugins/plaintext/writer.py) -/

/-- A string, as a character list. -/
abbrev Chars := List Char

/-- A `StringIO` stream: its buffer and the current position. -/
structure SIO where
  buf : Chars
  pos : Nat
  deriving DecidableEq, Repr

/-- A fresh `StringIO()`. -/
def SIO.fresh : SIO := ⟨[], 0⟩

/-- `StringIO.write`: overwrite at the current position and advance it. -/
def SIO.write (s : SIO) (t : Chars) : SIO :=
  ⟨s.buf.take s.pos ++ t ++ s.buf.drop (s.pos + t.length), s.pos + t.length⟩

/-- `StringIO.truncate()`: drop everything after the current position. -/
def SIO.truncate (s : SIO) : SIO := ⟨s.buf.take s.pos, s.pos⟩

/-- `StringIO.seek(0)`. -/
def SIO.seek0 (s : SIO) : SIO := ⟨s.buf, 0⟩

/-- Helper for `str.splitlines`, accumulating the current line reversed. -/
def splitlinesGo : Chars → Chars → List Chars
  | cur, [] => if cur.isEmpty then [] else [cur.reverse]
  | cur, c :: rest =>
    if c = '\n' then cur.reverse :: splitlinesGo [] rest
    else splitlinesGo (c :: cur) rest

/-- `str.splitlines()` for newline-terminated text: split at `'\n'`, keeping
no trailing empty line (`"a\nb\n" ↦ ["a", "b"]`, `"" ↦ []`). -/
def splitlines (cs : Chars) : List Chars := splitlinesGo [] cs

/-- `"  " * indent` (empty for the top-level `indent = -1`). -/
def indentChars (i : Int) : Chars := List.replicate (2 * i.toNat) ' '

/-- A document node the writer dispatches on: a `Paragraph` whose content is
a list of `Text` nodes, each a list of string runs; or a `List` whose content
is a list of `ListEntry`s, each a list of paragraph-level nodes. -/
inductive PNode where
  | para (content : List (List Chars))
  | plist (entries : List (List PNode))

/-- The line loop of `PlaintextWriter.paragraph`: write indent, prefix, the
line and one newline; after a non-empty prefix the prefix becomes `"  "`. -/
def writeLinesGo (ind : Int) (nl : Chars) : SIO → Chars → List Chars → SIO
  | sio, _, [] => sio
  | sio, pre, line :: rest =>
    let sio' := (((sio.write (indentChars ind)).write pre).write line).write nl
    writeLinesGo ind nl sio' (if pre.isEmpty then pre else [' ', ' ']) rest

/-- `PlaintextWriter.paragraph`: join the text runs into one string, then
write it line by line. -/
def writePara (ind : Int) (nl : Chars) (pre : Chars) (p : List (List Chars)) (sio : SIO) : SIO :=
  writeLinesGo ind nl sio pre (splitlines (p.map List.flatten).flatten)

mutual

/-- Dispatch of `paragraphDispatch[paragraph.__class__]`; `PlaintextWriter.list`
increments the indent for its entries and restores it afterwards. -/
def writeNode (ind : Int) (nl : Chars) (pre : Chars) (sio : SIO) : PNode → SIO
  | .para p => writePara ind nl pre p sio
  | .plist entries => writeEntries (ind + 1) nl sio entries

/-- The entry loop of `PlaintextWriter.list`. -/
def writeEntries (ind : Int) (nl : Chars) (sio : SIO) : List (List PNode) → SIO
  | [] => sio
  | entry :: rest => writeEntries ind nl (writeEntryParas ind nl sio true entry) rest

/-- The paragraph loop inside one list entry: prefix `"* "` for the first
paragraph, `"  "` for the rest. -/
def writeEntryParas (ind : Int) (nl : Chars) (sio : SIO) (first : Bool) : List PNode → SIO
  | [] => sio
  | n :: rest =>
    writeEntryParas ind nl (writeNode ind nl (if first then ['*', ' '] else [' ', ' ']) sio n)
      false rest

end

/-- The top-level loop of `PlaintextWriter.go`: handle each node (at the
initial `indent = -1`, with the default empty prefix), writing one newline
after every node but the last. -/
def goNodes (nl : Chars) : List PNode → SIO → SIO
  | [], sio => sio
  | [n], sio => writeNode (-1) nl [] sio n
  | n :: rest, sio => goNodes nl rest ((writeNode (-1) nl [] sio n).write nl)

/-- `PlaintextWriter.write` with `target=None`: run `go` on a fresh
`StringIO`, then `truncate()` and `seek(0)` and return the stream. -/
def plaintextWrite (content : List PNode) (nl : Chars) : SIO :=
  ((goNodes nl content SIO.fresh).truncate).seek0

/-- The output shape the claim describes, following the spec's words: each
paragraph renders as its joined text runs split into lines, every line
followed by one newline, with exactly one extra newline between consecutive
paragraphs and none after the last. -/
def paraBlockSpec (nl : Chars) (p : List (List Chars)) : Chars :=
  ((splitlines (p.map List.flatten).flatten).map (fun line => line ++ nl)).flatten

/-- The whole buffer the claim describes, following the spec's words. -/
def plaintextSpec (nl : Chars) (paras : List (List (List Chars))) : Chars :=
  List.intercalate nl (paras.map (paraBlockSpec nl))

/-! ### PythonReader (pyth/plugins/python/reader.py) -/

/-- The four `_PythonBase` markup classes (`pythType`s `Paragraph`,
`ListEntry`, `List`, `Text`). -/
inductive MK where
  | P | LE | L | T
  deriving DecidableEq, Repr

/-- A `properties` dict (keys with their values). -/
abbrev Props := List (Nat × Bool)

/-- A Python value the reader can see: a string, an int, a `_PythonBase`
builder object (kind, properties, accumulated content), or an already
converted pyth document node. -/
inductive PyV where
  | str : Chars → PyV
  | int : Int → PyV
  | builder : MK → Props → List PyV → PyV
  | node : MK → Props → List PyV → PyV

mutual

/-- `_convert`: builders are converted with `toPyth`, everything else passes
through.  `_PythonBase.toPyth` converts the children recursively, but
`T.toPyth` overrides it and keeps `self.content` as is. -/
def convertV : PyV → PyV
  | .builder .T pr c => .node .T pr c
  | .builder k pr c => .node k pr (convertList c)
  | v => v

/-- `_convert` mapped over a content list. -/
def convertList : List PyV → List PyV
  | [] => []
  | v :: vs => convertV v :: convertList vs

end

/-- `PythonReader.read(source)`: the content of the returned `Document`. -/
def pythonRead (source : List PyV) : List PyV := convertList source

mutual

/-- The conversion the claim describes, following the spec's words: every
markup object's children are converted the same way, with no exception
for `T`. -/
def convertSpecV : PyV → PyV
  | .builder k pr c => .node k pr (convertSpecList c)
  | v => v

/-- The claim's conversion mapped over a content list. -/
def convertSpecList : List PyV → List PyV
  | [] => []
  | v :: vs => convertSpecV v :: convertSpecList vs

end

/-! ### `_PythonBase.__getitem__` (pyth/plugins/python/reader.py) -/

/-- An argument of `__getitem__`, by the types its dispatch distinguishes:
an int, a tuple or list of arguments, or any other value. -/
inductive Item where
  | idx : Int → Item
  | seq : List Item → Item
  | other : PyV → Item

/-- Python list indexing `l[i]`: negative indices count from the end,
out-of-range raises `IndexError`. -/
def pyIndex {β : Type} (l : List β) (i : Int) : Except JaxModel.PyErr β :=
  let n : Int := l.length
  let j := if i < 0 then i + n else i
  if 0 ≤ j ∧ j < n then
    match l.get? j.toNat with
    | some v => .ok v
    | none => .error .indexError
  else .error .indexError

mutual

/-- The effect of one `self[item]` on `self.content`: an int indexes (and
the looked-up element is discarded by a surrounding loop), a tuple or list
applies `self[i]` to each element in order, anything else is appended. -/
def getitemStep (content : List PyV) : Item → Except JaxModel.PyErr (List PyV)
  | .seq items => getitemSeq content items
  | .idx i => (pyIndex content i).map (fun _ => content)
  | .other v => .ok (content ++ [v])

/-- The `for i in item: self[i]` loop of `__getitem__`. -/
def getitemSeq (content : List PyV) : List Item → Except JaxModel.PyErr (List PyV)
  | [] => .ok content
  | it :: rest =>
    match getitemStep content it with
    | .error e => .error e
    | .ok c' => getitemSeq c' rest

end

/-- `_PythonBase.__getitem__` on a builder with the given kind, properties
and content: an int returns `self.content[item]`; otherwise the updated
`self` is returned. -/
def getitem (k : MK) (pr : Props) (content : List PyV) (item : Item) :
    Except JaxModel.PyErr PyV :=
  match item with
  | .idx i => pyIndex content i
  | _ => (getitemStep content item).map (fun c' => .builder k pr c')

end PythModel

/-! ## Theorems -/

namespace JaxModel

/-- C9: a fresh `TraceStack` holds exactly one `MainTrace`, at level 0 with
trace type `EvalTrace`, which is also the dynamic trace; `next_level()`
always equals the current stack length; and `push` followed by `pop`
restores the stack contents. -/
theorem traceStack_invariants :
    (TraceStack.new.stack = [⟨0, .EvalTrace, []⟩] ∧
      TraceStack.new.dynamic = (⟨0, .EvalTrace, []⟩ : MainTrace)) ∧
    (∀ ts : TraceStack, ts.next_level = ts.stack.length) ∧
    (∀ (ts : TraceStack) (m : MainTrace), ((ts.push m).pop).stack = ts.stack) := by
  refine ⟨⟨rfl, rfl⟩, fun _ => rfl, fun ts m => ?_⟩
  simp [TraceStack.push, TraceStack.pop]

/-- C6: a `PartialVal` is exactly one of known or unknown and its accessors
agree with its constructors: `known(c)` is known with constant `c` and the
aval of `c`; `unknown(a)` is unknown with no constant and aval `a`; and
`merge_with_known` returns the stored constant when known, else its
argument. -/
theorem partialVal_accessors :
    ∀ (c : ConstV) (a : Aval) (v : ConstV),
      (PartialVal.known c).is_known = true ∧
      (PartialVal.known c).get_known = some c ∧
      (PartialVal.known c).get_aval = some (constAval c) ∧
      (PartialVal.unknown a).is_known = false ∧
      (PartialVal.unknown a).get_known = none ∧
      (PartialVal.unknown a).get_aval = some a ∧
      (PartialVal.known c).merge_with_known v = c ∧
      (PartialVal.unknown a).merge_with_known v = v := by
  intro c a v
  refine ⟨rfl, rfl, rfl, rfl, rfl, rfl, rfl, rfl⟩

theorem scan_fori_go {α : Type} (body : Int → α → α) :
    ∀ (n : Nat) (i : Int) (v : α),
      scan_carry_sem (fori_scan_body_fun body) n (i, v) =
        (i + n, fori_ref_go body n i v) := by
  intro n
  induction n with
  | zero => intro i v; simp [scan_carry_sem, fori_ref_go]
  | succ n ih =>
    intro i v
    show scan_carry_sem (fori_scan_body_fun body) n (i + 1, body i v) = _
    rw [ih]
    refine congrArg (fun t => (t, fori_ref_go body n (i + 1) (body i v))) ?_
    push_cast
    ring

theorem while_fori_go {α : Type} (body : Int → α → α) (u : Int) :
    ∀ (n : Nat) (i : Int) (v : α), (u - i).toNat = n →
      while_loop_sem fori_cond_fun (fori_body_fun body) n (i, u, v) =
        some (i + n, u, fori_ref_go body n i v) := by
  intro n
  induction n with
  | zero =>
    intro i v hn
    have hui : ¬ i < u := by omega
    simp [while_loop_sem, fori_cond_fun, hui, fori_ref_go]
  | succ n ih =>
    intro i v hn
    have hui : i < u := by omega
    have hcond : fori_cond_fun (α := α) (i, u, v) = true := by
      simp [fori_cond_fun, hui]
    have hstep : (u - (i + 1)).toNat = n := by omega
    show (if fori_cond_fun (i, u, v) then
        while_loop_sem fori_cond_fun (fori_body_fun body) n (fori_body_fun body (i, u, v))
      else some (i, u, v)) = _
    rw [hcond, if_pos rfl]
    show while_loop_sem fori_cond_fun (fori_body_fun body) n (i + 1, u, body i v) = _
    rw [ih (i + 1) (body i v) hstep]
    refine congrArg some ?_
    refine congrArg (fun t => (t, u, fori_ref_go body n (i + 1) (body i v))) ?_
    push_cast
    ring

/-- C4: `fori_loop` refines the sequential reference loop: for concrete
integers `lower ≤ upper` of equal canonical dtype it returns the reference
result on both the scan path and the while_loop path (whatever
`config.jax_disable_jit` is), and it raises `TypeError` when the canonical
dtypes differ. -/
theorem fori_loop_refines {α : Type} (disable_jit use_scan : Bool)
    (lower upper : TypedInt) (body : Int → α → α) (init : α) :
    (canonicalize_dtype lower.dtype = canonicalize_dtype upper.dtype →
      lower.val ≤ upper.val →
      fori_loop disable_jit use_scan lower upper body init =
        .ok (fori_loop_ref lower.val upper.val body init)) ∧
    (canonicalize_dtype lower.dtype ≠ canonicalize_dtype upper.dtype →
      fori_loop disable_jit use_scan lower upper body init = .error .typeError) := by
  constructor
  · intro hdt _hle
    unfold fori_loop
    rw [if_neg (by simpa using hdt)]
    cases use_scan with
    | true =>
      simp only [if_true]
      by_cases hz : disable_jit && lower.val == upper.val
      · rw [if_pos hz]
        have heq : lower.val = upper.val := by
          rcases Bool.and_eq_true .. |>.mp hz with ⟨_, h2⟩
          exact eq_of_beq h2
        have : (upper.val - lower.val).toNat = 0 := by omega
        rw [fori_loop_ref, this]
        rfl
      · rw [if_neg hz]
        rw [scan_fori_go body ((upper.val - lower.val).toNat) lower.val init]
        rfl
    | false =>
      simp only [Bool.false_eq_true, if_false]
      rw [while_fori_go body upper.val ((upper.val - lower.val).toNat) lower.val init rfl]
      rfl
  · intro hdt
    unfold fori_loop
    rw [if_pos (by simpa using hdt)]

/-- Witness for C4 at concrete inputs: both the scan path and the while_loop
path of summing `i` for `i ∈ [0, 4)`, and the dtype mismatch case. -/
theorem fori_loop_refines_witness :
    (fori_loop false true ⟨.i32, 0⟩ ⟨.i32, 4⟩ (fun i v => v + i) (0 : Int) =
      .ok (fori_loop_ref 0 4 (fun i v => v + i) 0)) ∧
    (fori_loop false false ⟨.i32, 0⟩ ⟨.i32, 4⟩ (fun i v => v + i) (0 : Int) =
      .ok (fori_loop_ref 0 4 (fun i v => v + i) 0)) ∧
    (fori_loop false true ⟨.i32, 0⟩ ⟨.f32, 4⟩ (fun i v => v + i) (0 : Int) =
      .error .typeError) :=
  ⟨(fori_loop_refines false true ⟨.i32, 0⟩ ⟨.i32, 4⟩ (fun i v => v + i) 0).1
      (by decide) (by decide),
    (fori_loop_refines false false ⟨.i32, 0⟩ ⟨.i32, 4⟩ (fun i v => v + i) 0).1
      (by decide) (by decide),
    (fori_loop_refines false true ⟨.i32, 0⟩ ⟨.f32, 4⟩ (fun i v => v + i) 0).2
      (by decide)⟩

theorem insertAt_length {β : Type} (a : β) :
    ∀ (n : Nat) (l : List β), (insertAt n a l).length = l.length + 1
  | 0, _ => rfl
  | _ + 1, [] => rfl
  | n + 1, x :: l => by simp [insertAt, insertAt_length a n l]

theorem removeAt_length {β : Type} :
    ∀ (n : Nat) (l : List β), n < l.length → (removeAt n l).length = l.length - 1
  | _, [], h => absurd h (by simp)
  | 0, _ :: _, _ => by simp [removeAt]
  | n + 1, x :: l, h => by
    have hn : n < l.length := by simpa using h
    have hl : 1 ≤ l.length := by omega
    simp [removeAt, removeAt_length n l hn]
    omega

theorem getD_insertAt_self {β : Type} (d0 : β) :
    ∀ (n : Nat) (a : β) (l : List β), n ≤ l.length → (insertAt n a l).getD n d0 = a
  | 0, _, _, _ => rfl
  | _ + 1, _, [], h => absurd h (by simp)
  | n + 1, a, x :: l, h =>
    getD_insertAt_self d0 n a l (by simpa using h)

theorem removeAt_insertAt {β : Type} :
    ∀ (n : Nat) (a : β) (l : List β), n ≤ l.length → removeAt n (insertAt n a l) = l
  | 0, _, _, _ => rfl
  | _ + 1, _, [], h => absurd h (by simp)
  | n + 1, a, x :: l, h => by
    show x :: removeAt n (insertAt n a l) = x :: l
    rw [removeAt_insertAt n a l (by simpa using h)]

theorem insertAt_getD_removeAt {β : Type} (d0 : β) :
    ∀ (n : Nat) (l : List β), n < l.length → insertAt n (l.getD n d0) (removeAt n l) = l
  | _, [], h => absurd h (by simp)
  | 0, x :: l, _ => rfl
  | n + 1, x :: l, h => by
    show x :: insertAt n (l.getD n d0) (removeAt n l) = x :: l
    rw [insertAt_getD_removeAt d0 n l (by simpa using h)]

theorem arrEq_refl {α : Type} (x : NDArray α) : arrEq x x :=
  ⟨rfl, fun _ _ => rfl⟩

theorem moveaxis_moveaxis {α : Type} (x : NDArray α) (s d : Nat)
    (hs : s < x.shape.length) (hd : d < x.shape.length) :
    arrEq (moveaxis (moveaxis x s d) d s) x := by
  by_cases hsd : s = d
  · subst hsd
    simp only [moveaxis, if_pos rfl]
    exact arrEq_refl x
  · have hds : d ≠ s := Ne.symm hsd
    have e1 : moveaxis x s d =
        ⟨insertAt d (x.shape.getD s 0) (removeAt s x.shape),
          fun idx => x.elt (insertAt s (idx.getD d 0) (removeAt d idx))⟩ := by
      rw [moveaxis, if_neg hsd]
    have hrs : (removeAt s x.shape).length = x.shape.length - 1 :=
      removeAt_length s x.shape hs
    have hd_le : d ≤ (removeAt s x.shape).length := by omega
    have hyshape : (moveaxis x s d).shape =
        insertAt d (x.shape.getD s 0) (removeAt s x.shape) := by rw [e1]
    have e2 : moveaxis (moveaxis x s d) d s =
        ⟨insertAt s ((moveaxis x s d).shape.getD d 0) (removeAt d (moveaxis x s d).shape),
          fun idx => (moveaxis x s d).elt (insertAt d (idx.getD s 0) (removeAt s idx))⟩ := by
      rw [moveaxis, if_neg hds]
    have hshape : (moveaxis (moveaxis x s d) d s).shape = x.shape := by
      rw [e2]
      show insertAt s ((moveaxis x s d).shape.getD d 0) (removeAt d (moveaxis x s d).shape) = _
      rw [hyshape, getD_insertAt_self 0 d _ _ hd_le, removeAt_insertAt d _ _ hd_le]
      exact insertAt_getD_removeAt 0 s x.shape hs
    refine ⟨hshape, ?_⟩
    intro idx hvalid
    have hlen : idx.length = x.shape.length := by
      have := List.Forall₂.length_eq hvalid
      rwa [hshape] at this
    have hsi : s < idx.length := by omega
    have hdi : d ≤ (removeAt s idx).length := by
      rw [removeAt_length s idx (by omega)]
      omega
    rw [e2]
    show (moveaxis x s d).elt (insertAt d (idx.getD s 0) (removeAt s idx)) = x.elt idx
    rw [e1]
    show x.elt (insertAt s ((insertAt d (idx.getD s 0) (removeAt s idx)).getD d 0)
      (removeAt d (insertAt d (idx.getD s 0) (removeAt s idx)))) = x.elt idx
    rw [getD_insertAt_self 0 d _ _ hdi, removeAt_insertAt d _ _ hdi,
      insertAt_getD_removeAt 0 s idx hsi]

/-- C5: `matchaxis` is a round trip on mapped array data: with `src = dst`
it returns `x` itself, and moving an axis from `src` to `dst` and back
yields an array equal to `x`. -/
theorem matchaxis_round_trip {α : Type} (sz : Nat) (x : NDArray α) (s d : Nat)
    (hs : s < x.shape.length) (hd : d < x.shape.length) :
    matchaxis sz (some s) (some s) x = .ok x ∧
    ∃ y z, matchaxis sz (some s) (some d) x = .ok y ∧
      matchaxis sz (some d) (some s) y = .ok z ∧ arrEq z x := by
  constructor
  · simp [matchaxis]
  · by_cases hsd : s = d
    · subst hsd
      exact ⟨x, x, by simp [matchaxis], by simp [matchaxis], arrEq_refl x⟩
    · have hds : d ≠ s := Ne.symm hsd
      refine ⟨moveaxis x s d, moveaxis (moveaxis x s d) d s, ?_, ?_, ?_⟩
      · simp [matchaxis, hsd]
      · simp [matchaxis, hds]
      · exact moveaxis_moveaxis x s d hs hd

/-- Witness for C5 at a concrete 2 × 3 array with axes 0 and 1. -/
theorem matchaxis_round_trip_witness :
    matchaxis 7 (some 0) (some 0) (⟨[2, 3], fun idx => idx⟩ : NDArray (List Nat)) =
      .ok ⟨[2, 3], fun idx => idx⟩ ∧
    ∃ y z, matchaxis 7 (some 0) (some 1) (⟨[2, 3], fun idx => idx⟩ : NDArray (List Nat)) =
        .ok y ∧
      matchaxis 7 (some 1) (some 0) y = .ok z ∧ arrEq z ⟨[2, 3], fun idx => idx⟩ :=
  matchaxis_round_trip 7 ⟨[2, 3], fun idx => idx⟩ 0 1 (by decide) (by decide)

/-- C2 counterexample: two `ShapedArray`s with symbolically equal shapes and
equal dtypes whose named shapes give axis 0 inconsistent sizes; their join
raises `TypeError` instead of returning a `ShapedArray` as the claim states. -/
theorem shapedArray_join_conflict :
    Aval.join (.shaped [] .f32 false [(0, 2)]) (.shaped [] .f32 false [(0, 3)]) =
      .error .typeError := rfl

/-- C2 (amended): for two `ShapedArray`s, if the shapes are symbolically
equal and the dtypes equal, `a.join(b)` returns a `ShapedArray` of the same
shape and dtype with conjoined `weak_type` and joined `named_shape` when the
named shapes are joinable, and raises `TypeError` when they give some axis
name inconsistent sizes; if only the dtypes are equal it returns
`UnshapedArray` of that dtype; otherwise it raises `TypeError`. -/
theorem shapedArray_join_characterization (s1 s2 : List Nat) (d1 d2 : Dtype)
    (w1 w2 : Bool) (n1 n2 : NamedShape) :
    Aval.join (.shaped s1 d1 w1 n1) (.shaped s2 d2 w2 n2) =
      if Aval.symbolic_equal_shape s1 s2 && d1 = d2 then
        (join_named_shapes n1 n2).map (fun nj => Aval.shaped s1 d1 (w1 && w2) nj)
      else if d1 = d2 then .ok (.unshaped d1 false)
      else .error .typeError := by
  show Aval.shapedJoin s1 d1 w1 n1 (.shaped s2 d2 w2 n2) = _
  simp only [Aval.shapedJoin, Aval.shape?, Aval.dtype?, Aval.weak?, Aval.named?]
  by_cases h : Aval.symbolic_equal_shape s1 s2 && d1 = d2
  · cases hj : join_named_shapes n1 n2 <;> simp [h, hj, Except.map]
  · simp [h]

theorem nsLookup_nil (k : Nat) : nsLookup [] k = none := rfl

theorem nsLookup_cons (k0 v0 k : Nat) (l : NamedShape) :
    nsLookup ((k0, v0) :: l) k = if k0 = k then some v0 else nsLookup l k := by
  by_cases h : k0 = k
  · simp [nsLookup, List.find?, h]
  · simp [nsLookup, List.find?, h]

theorem nsLookup_append (a b : NamedShape) (k : Nat) :
    nsLookup (a ++ b) k = (nsLookup a k).orElse (fun _ => nsLookup b k) := by
  induction a with
  | nil => simp [nsLookup_nil]
  | cons kv rest ih =>
    obtain ⟨k0, v0⟩ := kv
    by_cases h : k0 = k <;> simp [nsLookup_cons, h, ih]

theorem nsLookup_mem {l : NamedShape} {k v : Nat} (h : nsLookup l k = some v) :
    (k, v) ∈ l := by
  induction l with
  | nil => simp [nsLookup_nil] at h
  | cons kv rest ih =>
    obtain ⟨k0, v0⟩ := kv
    rw [nsLookup_cons] at h
    by_cases hk : k0 = k
    · rw [if_pos hk] at h
      obtain ⟨rfl⟩ := Option.some.injEq .. |>.mp h
      subst hk
      exact List.mem_cons_self _ _
    · rw [if_neg hk] at h
      exact List.mem_cons_of_mem _ (ih h)

theorem nsLookup_eq_none {l : NamedShape} {k : Nat} (h : ∀ v, (k, v) ∉ l) :
    nsLookup l k = none := by
  induction l with
  | nil => rfl
  | cons kv rest ih =>
    obtain ⟨k0, v0⟩ := kv
    rw [nsLookup_cons]
    have hk : k0 ≠ k := by
      intro he
      exact h v0 (by rw [he]; exact List.mem_cons_self _ _)
    rw [if_neg hk]
    exact ih (fun v hv => h v (List.mem_cons_of_mem _ hv))

theorem mem_nsLookup {l : NamedShape} {k v : Nat} (hnd : NodupKeys l) (h : (k, v) ∈ l) :
    nsLookup l k = some v := by
  induction l with
  | nil => simp at h
  | cons kv rest ih =>
    obtain ⟨k0, v0⟩ := kv
    have hnd' : NodupKeys rest := (List.nodup_cons.mp hnd).2
    have hk0 : k0 ∉ rest.map Prod.fst := (List.nodup_cons.mp hnd).1
    rw [nsLookup_cons]
    rcases List.mem_cons.mp h with he | hm
    · obtain ⟨rfl, rfl⟩ := Prod.mk.injEq .. |>.mp he
      rw [if_pos rfl]
    · have hk : k0 ≠ k := by
        intro he
        subst he
        exact hk0 (List.mem_map_of_mem Prod.fst hm)
      rw [if_neg hk]
      exact ih hnd' hm

theorem nodupKeys_compat {l : NamedShape} (hnd : NodupKeys l) : nsCompat l := by
  intro k v v' hv hv'
  have h1 := mem_nsLookup hnd hv
  have h2 := mem_nsLookup hnd hv'
  rw [h1] at h2
  exact Option.some.injEq .. |>.mp h2

theorem nsCompat_of_mem_iff {l1 l2 : NamedShape} (h : ∀ x, x ∈ l1 ↔ x ∈ l2)
    (hc : nsCompat l2) : nsCompat l1 :=
  fun k v v' hv hv' => hc k v v' ((h _).mp hv) ((h _).mp hv')

theorem not_mem_of_nsLookup_none {l : NamedShape} {k : Nat} (h : nsLookup l k = none) :
    ∀ v, (k, v) ∉ l := by
  induction l with
  | nil => simp
  | cons kv rest ih =>
    obtain ⟨k0, v0⟩ := kv
    rw [nsLookup_cons] at h
    by_cases hk : k0 = k
    · rw [if_pos hk] at h
      exact absurd h (by simp)
    · rw [if_neg hk] at h
      intro v hv
      rcases List.mem_cons.mp hv with he | hm
      · exact hk (Prod.mk.injEq .. |>.mp he).1.symm
      · exact ih h v hm

theorem nodupKeys_snoc {acc : NamedShape} {k0 v0 : Nat} (hnd : NodupKeys acc)
    (hl : nsLookup acc k0 = none) : NodupKeys (acc ++ [(k0, v0)]) := by
  have hk : k0 ∉ acc.map Prod.fst := by
    intro hmem
    obtain ⟨kv, hkv, hfst⟩ := List.mem_map.mp hmem
    refine not_mem_of_nsLookup_none hl kv.2 ?_
    rw [← hfst]
    simpa using hkv
  rw [NodupKeys, List.map_append, List.nodup_append]
  refine ⟨hnd, List.nodup_singleton k0, ?_⟩
  intro a ha hb
  simp only [List.map_cons, List.map_nil, List.mem_singleton] at hb
  subst hb
  exact hk ha

theorem nsJoinGo_error :
    ∀ (l : List (Nat × Nat)) (acc : NamedShape) (e : PyErr),
      nsJoinGo l acc = .error e → e = .typeError
  | [], _, _, h => by simp [nsJoinGo] at h
  | (k, v) :: rest, acc, e, h => by
    rw [nsJoinGo] at h
    cases hl : nsLookup acc k with
    | none =>
      rw [hl] at h
      exact nsJoinGo_error rest _ e h
    | some v' =>
      rw [hl] at h
      dsimp only at h
      by_cases hv : v' = v
      · rw [if_pos hv] at h
        exact nsJoinGo_error rest _ e h
      · rw [if_neg hv] at h
        exact (Except.error.injEq .. |>.mp h).symm

theorem nsJoinGo_nodup :
    ∀ (l : List (Nat × Nat)) (acc r : NamedShape),
      nsJoinGo l acc = .ok r → NodupKeys acc → NodupKeys r
  | [], acc, r, h, hnd => by
    rw [nsJoinGo] at h
    rwa [← Except.ok.injEq .. |>.mp h]
  | (k, v) :: rest, acc, r, h, hnd => by
    rw [nsJoinGo] at h
    cases hl : nsLookup acc k with
    | none =>
      rw [hl] at h
      exact nsJoinGo_nodup rest _ r h (nodupKeys_snoc hnd hl)
    | some v' =>
      rw [hl] at h
      dsimp only at h
      by_cases hv : v' = v
      · rw [if_pos hv] at h
        exact nsJoinGo_nodup rest _ r h hnd
      · rw [if_neg hv] at h
        exact absurd h (by simp)

theorem nsJoinGo_ok_lookup :
    ∀ (l : List (Nat × Nat)) (acc r : NamedShape), nsJoinGo l acc = .ok r →
      ∀ k, nsLookup r k = (nsLookup acc k).orElse (fun _ => nsLookup l k)
  | [], acc, r, h, k => by
    rw [nsJoinGo] at h
    rw [← Except.ok.injEq .. |>.mp h, nsLookup_nil]
    cases nsLookup acc k <;> rfl
  | (k0, v0) :: rest, acc, r, h, k => by
    rw [nsJoinGo] at h
    cases hl : nsLookup acc k0 with
    | none =>
      rw [hl] at h
      have ih := nsJoinGo_ok_lookup rest _ r h k
      rw [nsLookup_append] at ih
      rw [ih, nsLookup_cons]
      cases ha : nsLookup acc k with
      | some u => rfl
      | none =>
        by_cases hk : k0 = k
        · subst hk
          simp [nsLookup_cons]
        · simp [nsLookup_cons, nsLookup_nil, hk]
    | some v' =>
      rw [hl] at h
      dsimp only at h
      by_cases hv : v' = v0
      · rw [if_pos hv] at h
        have ih := nsJoinGo_ok_lookup rest _ r h k
        rw [ih, nsLookup_cons]
        by_cases hk : k0 = k
        · subst hk
          rw [hl]
          rfl
        · rw [if_neg hk]
      · rw [if_neg hv] at h
        exact absurd h (by simp)

theorem nsJoinGo_ok_iff :
    ∀ (l : List (Nat × Nat)) (acc : NamedShape), NodupKeys acc →
      ((∃ r, nsJoinGo l acc = .ok r) ↔ nsCompat (acc ++ l))
  | [], acc, hnd => by
    rw [List.append_nil]
    exact iff_of_true ⟨acc, rfl⟩ (nodupKeys_compat hnd)
  | (k0, v0) :: rest, acc, hnd => by
    rw [nsJoinGo]
    cases hl : nsLookup acc k0 with
    | none =>
      have ih := nsJoinGo_ok_iff rest (acc ++ [(k0, v0)]) (nodupKeys_snoc hnd hl)
      rw [ih]
      constructor
      · intro hc
        refine nsCompat_of_mem_iff (fun x => ?_) hc
        simp only [List.mem_append, List.mem_cons, List.mem_singleton]
        tauto
      · intro hc
        refine nsCompat_of_mem_iff (fun x => ?_) hc
        simp only [List.mem_append, List.mem_cons, List.mem_singleton]
        tauto
    | some v' =>
      dsimp only
      by_cases hv : v' = v0
      · rw [if_pos hv]
        rw [hv] at hl
        have ih := nsJoinGo_ok_iff rest acc hnd
        rw [ih]
        have hmem : (k0, v0) ∈ acc := nsLookup_mem hl
        constructor
        · intro hc k u u' hu hu'
          have expand : ∀ u0, (k, u0) ∈ acc ++ (k0, v0) :: rest →
              (k, u0) ∈ acc ++ rest ∨ (k = k0 ∧ u0 = v0) := by
            intro u0 hm
            simp only [List.mem_append, List.mem_cons] at hm
            rcases hm with h1 | h2 | h3
            · exact Or.inl (List.mem_append.mpr (Or.inl h1))
            · exact Or.inr ⟨(Prod.mk.injEq .. |>.mp h2).1, (Prod.mk.injEq .. |>.mp h2).2⟩
            · exact Or.inl (List.mem_append.mpr (Or.inr h3))
          rcases expand u hu with hu1 | ⟨hk1, hv1⟩ <;>
            rcases expand u' hu' with hu2 | ⟨hk2, hv2⟩
          · exact hc k u u' hu1 hu2
          · rw [hv2]
            refine hc k u v0 hu1 ?_
            rw [hk2]
            exact List.mem_append.mpr (Or.inl hmem)
          · rw [hv1]
            refine hc k0 v0 u' (List.mem_append.mpr (Or.inl hmem)) ?_
            rw [hk1] at hu2
            exact hu2
          · rw [hv1, hv2]
        · intro hc k u u' hu hu'
          have lift : ∀ u0, (k, u0) ∈ acc ++ rest → (k, u0) ∈ acc ++ (k0, v0) :: rest := by
            intro u0 hm
            simp only [List.mem_append, List.mem_cons] at hm ⊢
            tauto
          exact hc k u u' (lift u hu) (lift u' hu')
      · rw [if_neg hv]
        refine iff_of_false (by simp) ?_
        intro hc
        have hmem : (k0, v') ∈ acc := nsLookup_mem hl
        exact hv (hc k0 v' v0 (List.mem_append.mpr (Or.inl hmem))
          (List.mem_append.mpr (Or.inr (List.mem_cons_self _ _))))

theorem join_named_shapes_ok_iff (a b : NamedShape) :
    (∃ r, join_named_shapes a b = .ok r) ↔ nsCompat (a ++ b) := by
  have h := nsJoinGo_ok_iff (a ++ b) [] (by simp [NodupKeys])
  rw [List.nil_append] at h
  exact h

theorem join_named_shapes_lookup {a b r : NamedShape} (h : join_named_shapes a b = .ok r)
    (k : Nat) : nsLookup r k = nsLookup (a ++ b) k := by
  have h1 := nsJoinGo_ok_lookup (a ++ b) [] r h k
  rw [h1, nsLookup_nil]
  rfl

theorem join_named_shapes_nodup {a b r : NamedShape} (h : join_named_shapes a b = .ok r) :
    NodupKeys r :=
  nsJoinGo_nodup (a ++ b) [] r h (by simp [NodupKeys])

theorem lookup_append_comm {a b : NamedShape} (hc : nsCompat (a ++ b)) (k : Nat) :
    nsLookup (a ++ b) k = nsLookup (b ++ a) k := by
  rw [nsLookup_append, nsLookup_append]
  cases ha : nsLookup a k with
  | none => cases hb : nsLookup b k <;> rfl
  | some u1 =>
    cases hb : nsLookup b k with
    | none => rfl
    | some u2 =>
      have h1 : (k, u1) ∈ a ++ b := List.mem_append.mpr (Or.inl (nsLookup_mem ha))
      have h2 : (k, u2) ∈ a ++ b := List.mem_append.mpr (Or.inr (nsLookup_mem hb))
      rw [hc k u1 u2 h1 h2]

theorem dictEq_of_lookup_eq {a b : NamedShape} (hna : NodupKeys a) (hnb : NodupKeys b)
    (h : ∀ k, nsLookup a k = nsLookup b k) : dictEq a b = true := by
  rw [dictEq, Bool.and_eq_true]
  constructor <;> rw [List.all_eq_true] <;> intro kv hkv <;>
    rw [decide_eq_true_eq]
  · rw [← h kv.1]
    exact mem_nsLookup hna (by simpa using hkv)
  · rw [h kv.1]
    exact mem_nsLookup hnb (by simpa using hkv)

theorem dictEq_symm (a b : NamedShape) : dictEq a b = dictEq b a := by
  rw [dictEq, dictEq]
  exact Bool.and_comm _ _

theorem join_named_shapes_comm (a b : NamedShape) :
    (∃ r1 r2, join_named_shapes a b = .ok r1 ∧ join_named_shapes b a = .ok r2 ∧
      dictEq r1 r2 = true) ∨
    (join_named_shapes a b = .error .typeError ∧
      join_named_shapes b a = .error .typeError) := by
  by_cases hc : nsCompat (a ++ b)
  · left
    have hc' : nsCompat (b ++ a) := by
      refine nsCompat_of_mem_iff (fun x => ?_) hc
      simp only [List.mem_append]
      tauto
    obtain ⟨r1, h1⟩ := (join_named_shapes_ok_iff a b).mpr hc
    obtain ⟨r2, h2⟩ := (join_named_shapes_ok_iff b a).mpr hc'
    refine ⟨r1, r2, h1, h2, ?_⟩
    refine dictEq_of_lookup_eq (join_named_shapes_nodup h1) (join_named_shapes_nodup h2) ?_
    intro k
    rw [join_named_shapes_lookup h1 k, join_named_shapes_lookup h2 k]
    exact lookup_append_comm hc k
  · right
    have hc' : ¬ nsCompat (b ++ a) := by
      intro h
      refine hc (nsCompat_of_mem_iff (fun x => ?_) h)
      simp only [List.mem_append]
      tauto
    constructor
    · cases he : join_named_shapes a b with
      | ok r => exact absurd ((join_named_shapes_ok_iff a b).mp ⟨r, he⟩) hc
      | error e => rw [nsJoinGo_error (a ++ b) [] e he]
    · cases he : join_named_shapes b a with
      | ok r => exact absurd ((join_named_shapes_ok_iff b a).mp ⟨r, he⟩) hc'
      | error e => rw [nsJoinGo_error (b ++ a) [] e he]

theorem join_named_shapes_self {n : NamedShape} (hnd : NodupKeys n) :
    ∃ r, join_named_shapes n n = .ok r ∧ dictEq r n = true := by
  have hc : nsCompat (n ++ n) := by
    refine nsCompat_of_mem_iff (fun x => ?_) (nodupKeys_compat hnd)
    simp [List.mem_append]
  obtain ⟨r, hr⟩ := (join_named_shapes_ok_iff n n).mpr hc
  refine ⟨r, hr, dictEq_of_lookup_eq (join_named_shapes_nodup hr) hnd ?_⟩
  intro k
  rw [join_named_shapes_lookup hr k, nsLookup_append]
  cases h : nsLookup n k <;> rfl

theorem elemEq_comm : ∀ a b : Elem, elemEq a b = elemEq b a
  | .nan, .nan => rfl
  | .nan, .num _ => rfl
  | .num _, .nan => rfl
  | .num _, .num _ => decide_eq_decide.mpr eq_comm

theorem zipAll_comm : ∀ a b : List Elem,
    ((a.zip b).all fun p => elemEq p.1 p.2) = ((b.zip a).all fun p => elemEq p.1 p.2)
  | [], [] => rfl
  | [], _ :: _ => rfl
  | _ :: _, [] => rfl
  | x :: a, y :: b => by
    rw [List.zip_cons_cons, List.zip_cons_cons, List.all_cons, List.all_cons]
    rw [elemEq_comm x y, zipAll_comm a b]

theorem dataEq_comm (a b : List Elem) : dataEq a b = dataEq b a := by
  rw [dataEq, dataEq, zipAll_comm a b,
    show decide (a.length = b.length) = decide (b.length = a.length) from
      decide_eq_decide.mpr eq_comm]

theorem elemEq_self_of {a b : Elem} (h : elemEq a b = true) : elemEq a a = true := by
  cases a <;> cases b <;> simp [elemEq] at h ⊢

theorem zipAll_self_of : ∀ {a b : List Elem}, a.length = b.length →
    ((a.zip b).all fun p => elemEq p.1 p.2) = true →
    ((a.zip a).all fun p => elemEq p.1 p.2) = true
  | [], _, _, _ => rfl
  | x :: a, [], hl, _ => absurd hl (by simp)
  | x :: a, y :: b, hl, h => by
    rw [List.zip_cons_cons, List.all_cons, Bool.and_eq_true] at h ⊢
    exact ⟨elemEq_self_of h.1, zipAll_self_of (by simpa using hl) h.2⟩

theorem dataEq_self_of {a b : List Elem} (h : dataEq a b = true) : dataEq a a = true := by
  rw [dataEq, Bool.and_eq_true, decide_eq_true_eq] at h
  rw [dataEq, Bool.and_eq_true, decide_eq_true_eq]
  exact ⟨rfl, zipAll_self_of h.1 h.2⟩

theorem dataEq_refl_of_noNaN : ∀ {a : List Elem}, (∀ e ∈ a, e ≠ Elem.nan) →
    dataEq a a = true
  | [], _ => rfl
  | x :: a, h => by
    have hx : x ≠ Elem.nan := h x (List.mem_cons_self _ _)
    have hrest : dataEq a a = true :=
      dataEq_refl_of_noNaN (fun e he => h e (List.mem_cons_of_mem _ he))
    rw [dataEq, Bool.and_eq_true, decide_eq_true_eq] at hrest ⊢
    refine ⟨rfl, ?_⟩
    rw [List.zip_cons_cons, List.all_cons, Bool.and_eq_true]
    refine ⟨?_, hrest.2⟩
    cases x with
    | nan => exact absurd rfl hx
    | num v => simp [elemEq]

theorem eqv_concrete_refl_of_noNaN {d : Dtype} {v : ConcreteVal} {w : Bool}
    (h : v.noNaN) : Aval.eqv (.concrete d v w) (.concrete d v w) = true := by
  simp [Aval.eqv, dataEq_refl_of_noNaN h]

theorem eqv_concrete_self_of {d : Dtype} {v : ConcreteVal} {w : Bool} {other : Aval}
    (h : Aval.eqv (.concrete d v w) other = true) :
    Aval.eqv (.concrete d v w) (.concrete d v w) = true := by
  cases other with
  | concrete d2 v2 w2 =>
    rw [Aval.eqv, Bool.and_eq_true] at h
    simp [Aval.eqv, dataEq_self_of h.2]
  | bot => simp [Aval.eqv] at h
  | unit => simp [Aval.eqv] at h
  | token => simp [Aval.eqv] at h
  | unshaped _ _ => simp [Aval.eqv] at h
  | dshaped _ _ _ => simp [Aval.eqv] at h
  | shaped _ _ _ _ => simp [Aval.eqv] at h

theorem eqv_concrete_comm (d1 d2 : Dtype) (v1 v2 : ConcreteVal) (w1 w2 : Bool) :
    Aval.eqv (.concrete d1 v1 w1) (.concrete d2 v2 w2) =
      Aval.eqv (.concrete d2 v2 w2) (.concrete d1 v1 w1) := by
  rw [Aval.eqv, Aval.eqv, dataEq_comm v1.data v2.data,
    show decide (d1 = d2) = decide (d2 = d1) from decide_eq_decide.mpr eq_comm,
    show decide (v1.shape = v2.shape) = decide (v2.shape = v1.shape) from
      decide_eq_decide.mpr eq_comm,
    show decide (w1 = w2) = decide (w2 = w1) from decide_eq_decide.mpr eq_comm]

theorem join_ok_WFnamed {x y a : Aval} (h : Aval.join x y = .ok a) : a.WFnamed := by
  cases x with
  | bot => simp [Aval.join] at h
  | unit =>
    rw [Aval.join] at h
    rw [← Except.ok.injEq .. |>.mp h]
    trivial
  | token =>
    rw [Aval.join] at h
    split at h
    · rw [← Except.ok.injEq .. |>.mp h]
      trivial
    · simp at h
  | unshaped d w =>
    rw [Aval.join, Aval.unshapedJoin] at h
    split at h
    · split at h
      · split at h <;> (rw [← Except.ok.injEq .. |>.mp h]; trivial)
      · simp at h
    · simp at h
  | dshaped s d w =>
    rw [Aval.join, Aval.unshapedJoin] at h
    split at h
    · split at h
      · split at h <;> (rw [← Except.ok.injEq .. |>.mp h]; trivial)
      · simp at h
    · simp at h
  | shaped s d w n =>
    rw [Aval.join, Aval.shapedJoin] at h
    split at h
    · split at h
      · split at h
        · simp at h
        · rename_i nj heq
          rw [← Except.ok.injEq .. |>.mp h]
          exact join_named_shapes_nodup heq
      · split at h
        · rw [← Except.ok.injEq .. |>.mp h]
          trivial
        · simp at h
    · simp at h
  | concrete d v w =>
    rw [Aval.join, Aval.concreteJoin] at h
    split at h
    · rw [← Except.ok.injEq .. |>.mp h]
      trivial
    · split at h
      · split at h
        · split at h
          · simp at h
          · rename_i nj heq
            rw [← Except.ok.injEq .. |>.mp h]
            exact join_named_shapes_nodup heq
        · split at h
          · rw [← Except.ok.injEq .. |>.mp h]
            trivial
          · simp at h
      · simp at h

theorem dictEq_refl_of_nodup {n : NamedShape} (hnd : NodupKeys n) : dictEq n n = true :=
  dictEq_of_lookup_eq hnd hnd (fun _ => rfl)

theorem join_ok_eqv_refl {x y a : Aval} (h : Aval.join x y = .ok a) :
    Aval.eqv a a = true := by
  cases x with
  | bot => simp [Aval.join] at h
  | unit =>
    rw [Aval.join] at h
    rw [← Except.ok.injEq .. |>.mp h]
    rfl
  | token =>
    rw [Aval.join] at h
    split at h
    · rw [← Except.ok.injEq .. |>.mp h]
      rfl
    · simp at h
  | unshaped d w =>
    rw [Aval.join, Aval.unshapedJoin] at h
    split at h
    · split at h
      · split at h <;> (rw [← Except.ok.injEq .. |>.mp h]; simp [Aval.eqv])
      · simp at h
    · simp at h
  | dshaped s d w =>
    rw [Aval.join, Aval.unshapedJoin] at h
    split at h
    · split at h
      · split at h <;> (rw [← Except.ok.injEq .. |>.mp h]; simp [Aval.eqv])
      · simp at h
    · simp at h
  | shaped s d w n =>
    rw [Aval.join, Aval.shapedJoin] at h
    split at h
    · split at h
      · split at h
        · simp at h
        · rename_i nj heq
          rw [← Except.ok.injEq .. |>.mp h]
          simp [Aval.eqv, dictEq_refl_of_nodup (join_named_shapes_nodup heq)]
      · split at h
        · rw [← Except.ok.injEq .. |>.mp h]
          simp [Aval.eqv]
        · simp at h
    · simp at h
  | concrete d v w =>
    rw [Aval.join, Aval.concreteJoin] at h
    split at h
    · rename_i heqv
      rw [← Except.ok.injEq .. |>.mp h]
      exact eqv_concrete_self_of heqv
    · split at h
      · split at h
        · split at h
          · simp at h
          · rename_i nj heq
            rw [← Except.ok.injEq .. |>.mp h]
            simp [Aval.eqv, dictEq_refl_of_nodup (join_named_shapes_nodup heq)]
        · split at h
          · rw [← Except.ok.injEq .. |>.mp h]
            simp [Aval.eqv]
          · simp at h
      · simp at h

theorem joinResEq_map_self (x y : Aval) :
    joinResEq ((Aval.join x y).map some) ((Aval.join x y).map some) := by
  cases h : Aval.join x y with
  | error e => exact rfl
  | ok a =>
    show Aval.eqv a a = true
    exact join_ok_eqv_refl h

theorem lattice_join_resEq_self (x y : Aval) :
    joinResEq (lattice_join (some x) (some y)) (lattice_join (some x) (some y)) := by
  rw [lattice_join]
  split
  · exact joinResEq_map_self y x
  · split
    · exact joinResEq_map_self x y
    · exact rfl

theorem lattice_join_idem_aux (x : Aval) (hx : x.isUSC = true) (hwx : x.WFnamed)
    (hnn : x.noNaN) :
    joinResEq (lattice_join (some x) (some x)) (.ok (some x)) := by
  cases x with
  | bot => simp [Aval.isUSC] at hx
  | unit => simp [Aval.isUSC] at hx
  | token => simp [Aval.isUSC] at hx
  | dshaped s d w => simp [Aval.isUSC] at hx
  | unshaped d w =>
    show joinResEq ((Aval.join (.unshaped d w) (.unshaped d w)).map some)
      (.ok (some (.unshaped d w)))
    rw [Aval.join, Aval.unshapedJoin]
    dsimp only [Aval.dtype?, Aval.weak?]
    rw [if_pos rfl, if_pos rfl]
    show Aval.eqv (.unshaped d w) (.unshaped d w) = true
    simp [Aval.eqv]
  | shaped s d w n =>
    obtain ⟨r, hr, hde⟩ := join_named_shapes_self (hwx : NodupKeys n)
    show joinResEq ((Aval.join (.shaped s d w n) (.shaped s d w n)).map some)
      (.ok (some (.shaped s d w n)))
    rw [Aval.join, Aval.shapedJoin]
    dsimp only [Aval.shape?, Aval.dtype?, Aval.weak?, Aval.named?]
    have hc : (Aval.symbolic_equal_shape s s && decide (d = d)) = true := by
      simp [Aval.symbolic_equal_shape]
    rw [if_pos hc, hr]
    show Aval.eqv (.shaped s d (w && w) r) (.shaped s d w n) = true
    simp [Aval.eqv, hde, Bool.and_self]
  | concrete d v w =>
    have he : Aval.eqv (.concrete d v w) (.concrete d v w) = true :=
      eqv_concrete_refl_of_noNaN (hnn : v.noNaN)
    show joinResEq ((Aval.join (.concrete d v w) (.concrete d v w)).map some)
      (.ok (some (.concrete d v w)))
    rw [Aval.join, Aval.concreteJoin, if_pos he]
    exact he

theorem lattice_join_comm_aux (x y : Aval)
    (hx : x.isUSC = true) (hy : y.isUSC = true)
    (hdt : x.dtype? = y.dtype?)
    (hsh : ∀ sx sy, x.shape? = some sx → y.shape? = some sy → sx = sy) :
    joinResEq (lattice_join (some x) (some y)) (lattice_join (some y) (some x)) := by
  cases x with
  | bot => simp [Aval.isUSC] at hx
  | unit => simp [Aval.isUSC] at hx
  | token => simp [Aval.isUSC] at hx
  | dshaped s d w => simp [Aval.isUSC] at hx
  | unshaped d1 w1 =>
    cases y with
    | bot => simp [Aval.isUSC] at hy
    | unit => simp [Aval.isUSC] at hy
    | token => simp [Aval.isUSC] at hy
    | dshaped s2 d2 w2 => simp [Aval.isUSC] at hy
    | unshaped d2 w2 =>
      obtain rfl : d1 = d2 := by simpa [Aval.dtype?] using hdt
      by_cases hw : w1 = w2
      · subst hw
        exact lattice_join_resEq_self _ _
      · show joinResEq ((Aval.join (.unshaped d1 w2) (.unshaped d1 w1)).map some)
          ((Aval.join (.unshaped d1 w1) (.unshaped d1 w2)).map some)
        rw [Aval.join, Aval.join, Aval.unshapedJoin, Aval.unshapedJoin]
        dsimp only [Aval.dtype?, Aval.weak?]
        rw [if_pos rfl, if_pos rfl, if_neg (Ne.symm hw), if_neg hw]
        show Aval.eqv (.unshaped d1 false) (.unshaped d1 false) = true
        simp [Aval.eqv]
    | shaped s2 d2 w2 n2 =>
      show joinResEq ((Aval.join (.unshaped d1 w1) (.shaped s2 d2 w2 n2)).map some)
        ((Aval.join (.unshaped d1 w1) (.shaped s2 d2 w2 n2)).map some)
      exact joinResEq_map_self _ _
    | concrete d2 v2 w2 =>
      show joinResEq ((Aval.join (.unshaped d1 w1) (.concrete d2 v2 w2)).map some)
        ((Aval.join (.unshaped d1 w1) (.concrete d2 v2 w2)).map some)
      exact joinResEq_map_self _ _
  | shaped s1 d1 w1 n1 =>
    cases y with
    | bot => simp [Aval.isUSC] at hy
    | unit => simp [Aval.isUSC] at hy
    | token => simp [Aval.isUSC] at hy
    | dshaped s2 d2 w2 => simp [Aval.isUSC] at hy
    | unshaped d2 w2 =>
      show joinResEq ((Aval.join (.unshaped d2 w2) (.shaped s1 d1 w1 n1)).map some)
        ((Aval.join (.unshaped d2 w2) (.shaped s1 d1 w1 n1)).map some)
      exact joinResEq_map_self _ _
    | shaped s2 d2 w2 n2 =>
      obtain rfl : d1 = d2 := by simpa [Aval.dtype?] using hdt
      obtain rfl : s1 = s2 := hsh s1 s2 rfl rfl
      show joinResEq ((Aval.join (.shaped s1 d1 w2 n2) (.shaped s1 d1 w1 n1)).map some)
        ((Aval.join (.shaped s1 d1 w1 n1) (.shaped s1 d1 w2 n2)).map some)
      rw [Aval.join, Aval.join, Aval.shapedJoin, Aval.shapedJoin]
      dsimp only [Aval.shape?, Aval.dtype?, Aval.weak?, Aval.named?]
      have hc : (Aval.symbolic_equal_shape s1 s1 && decide (d1 = d1)) = true := by
        simp [Aval.symbolic_equal_shape]
      rw [if_pos hc, if_pos hc]
      rcases join_named_shapes_comm n1 n2 with ⟨r1, r2, hj1, hj2, hde⟩ | ⟨hj1, hj2⟩
      · rw [hj1, hj2]
        have hd21 : dictEq r2 r1 = true := by rw [dictEq_symm]; exact hde
        show Aval.eqv (.shaped s1 d1 (w2 && w1) r2) (.shaped s1 d1 (w1 && w2) r1) = true
        simp [Aval.eqv, hd21, Bool.and_comm]
      · rw [hj1, hj2]
        exact rfl
    | concrete d2 v2 w2 =>
      show joinResEq ((Aval.join (.shaped s1 d1 w1 n1) (.concrete d2 v2 w2)).map some)
        ((Aval.join (.shaped s1 d1 w1 n1) (.concrete d2 v2 w2)).map some)
      exact joinResEq_map_self _ _
  | concrete d1 v1 w1 =>
    cases y with
    | bot => simp [Aval.isUSC] at hy
    | unit => simp [Aval.isUSC] at hy
    | token => simp [Aval.isUSC] at hy
    | dshaped s2 d2 w2 => simp [Aval.isUSC] at hy
    | unshaped d2 w2 =>
      show joinResEq ((Aval.join (.unshaped d2 w2) (.concrete d1 v1 w1)).map some)
        ((Aval.join (.unshaped d2 w2) (.concrete d1 v1 w1)).map some)
      exact joinResEq_map_self _ _
    | shaped s2 d2 w2 n2 =>
      show joinResEq ((Aval.join (.shaped s2 d2 w2 n2) (.concrete d1 v1 w1)).map some)
        ((Aval.join (.shaped s2 d2 w2 n2) (.concrete d1 v1 w1)).map some)
      exact joinResEq_map_self _ _
    | concrete d2 v2 w2 =>
      obtain rfl : d1 = d2 := by simpa [Aval.dtype?] using hdt
      have hshp : v1.shape = v2.shape := hsh _ _ rfl rfl
      show joinResEq ((Aval.join (.concrete d1 v2 w2) (.concrete d1 v1 w1)).map some)
        ((Aval.join (.concrete d1 v1 w1) (.concrete d1 v2 w2)).map some)
      rw [Aval.join, Aval.join, Aval.concreteJoin, Aval.concreteJoin]
      by_cases he : Aval.eqv (.concrete d1 v2 w2) (.concrete d1 v1 w1) = true
      · have he' : Aval.eqv (.concrete d1 v1 w1) (.concrete d1 v2 w2) = true := by
          rw [eqv_concrete_comm]
          exact he
        rw [if_pos he, if_pos he']
        exact he
      · have he' : ¬ Aval.eqv (.concrete d1 v1 w1) (.concrete d1 v2 w2) = true := by
          rw [eqv_concrete_comm]
          exact he
        rw [if_neg he, if_neg he']
        dsimp only [Aval.shape?, Aval.dtype?, Aval.weak?, Aval.named?]
        have hc1 : (decide (v2.shape = v1.shape) && decide (d1 = d1)) = true := by
          simp [hshp]
        have hc2 : (decide (v1.shape = v2.shape) && decide (d1 = d1)) = true := by
          simp [hshp]
        rw [if_pos hc1, if_pos hc2]
        show Aval.eqv (.shaped v2.shape d1 (w2 && w1) []) (.shaped v1.shape d1 (w1 && w2) []) = true
        simp [Aval.eqv, hshp, Bool.and_comm, dictEq]

/-- C1 counterexample: a scalar `ConcreteArray` holding NaN.  Python `x == x`
is `False` — `(val == val).all()` fails on NaN — so `x.join(x)` falls to the
`ShapedArray` branch and `lattice_join(x, x)` is a `ShapedArray`, not equal
to `x` as the claim states. -/
theorem lattice_join_concrete_nan_not_idem :
    lattice_join (some (.concrete .f32 ⟨[], [.nan]⟩ false))
        (some (.concrete .f32 ⟨[], [.nan]⟩ false)) =
      .ok (some (.shaped [] .f32 false [])) ∧
    ¬ joinResEq
        (lattice_join (some (.concrete .f32 ⟨[], [.nan]⟩ false))
          (some (.concrete .f32 ⟨[], [.nan]⟩ false)))
        (.ok (some (.concrete .f32 ⟨[], [.nan]⟩ false))) := by
  constructor
  · rfl
  · intro h
    have h' : Aval.eqv (.shaped [] .f32 false [])
        (.concrete .f32 ⟨[], [.nan]⟩ false) = true := h
    simp [Aval.eqv] at h'

/-- C1 (amended): on `UnshapedArray`, `ShapedArray` and `ConcreteArray`
abstract values with equal dtypes (and, where both carry shapes, symbolically
equal shapes), `lattice_join` is commutative up to Python `==` (two raised
`TypeError`s counting as the same outcome); and `lattice_join(x, x)` equals
`x` whenever `x`'s value contains no NaN — for a NaN-holding `ConcreteArray`,
`x == x` is `False` and `x.join(x)` returns the corresponding `ShapedArray`
instead. -/
theorem lattice_join_comm_idem (x y : Aval)
    (hx : x.isUSC = true) (hy : y.isUSC = true)
    (hwx : x.WFnamed) (_hwy : y.WFnamed)
    (hdt : x.dtype? = y.dtype?)
    (hsh : ∀ sx sy, x.shape? = some sx → y.shape? = some sy → sx = sy) :
    joinResEq (lattice_join (some x) (some y)) (lattice_join (some y) (some x)) ∧
    (x.noNaN → joinResEq (lattice_join (some x) (some x)) (.ok (some x))) :=
  ⟨lattice_join_comm_aux x y hx hy hdt hsh,
    fun hnn => lattice_join_idem_aux x hx hwx hnn⟩

/-- Witness for C1 at two concrete `ShapedArray`s with different weak types
and named shapes, and idempotence at the first of them. -/
theorem lattice_join_comm_idem_witness :
    joinResEq
      (lattice_join (some (.shaped [2] .f32 false [(0, 1)]))
        (some (.shaped [2] .f32 true [(1, 4)])))
      (lattice_join (some (.shaped [2] .f32 true [(1, 4)]))
        (some (.shaped [2] .f32 false [(0, 1)]))) ∧
    joinResEq
      (lattice_join (some (.shaped [2] .f32 false [(0, 1)]))
        (some (.shaped [2] .f32 false [(0, 1)])))
      (.ok (some (.shaped [2] .f32 false [(0, 1)]))) :=
  have h := lattice_join_comm_idem (.shaped [2] .f32 false [(0, 1)])
    (.shaped [2] .f32 true [(1, 4)])
    (by decide) (by decide) (by decide) (by decide) rfl
    (by
      intro sx sy h1 h2
      simp only [Aval.shape?, Option.some.injEq] at h1 h2
      rw [← h1, ← h2])
  ⟨h.1, h.2 (by decide)⟩

/-- C3: `lattice_join` treats `None` as the identity element — for every
abstract value `y`, `lattice_join(None, y)` and `lattice_join(y, None)`
return `y` — and raises `TypeError` on every pair whose types are mutually
not instances of one another. -/
theorem lattice_join_none_incomparable :
    (∀ y : Aval, lattice_join none (some y) = .ok (some y) ∧
      lattice_join (some y) none = .ok (some y)) ∧
    (∀ x y : Aval, Aval.isinst x y = false → Aval.isinst y x = false →
      lattice_join (some x) (some y) = .error .typeError) := by
  constructor
  · intro y
    exact ⟨rfl, rfl⟩
  · intro x y h1 h2
    simp [lattice_join, h1, h2]

/-- Witness for C3: `None` is the identity at `abstract_token`, and
`DShapedArray` / `ShapedArray` (neither a subclass of the other) are
incomparable. -/
theorem lattice_join_none_incomparable_witness :
    (lattice_join none (some .token) = .ok (some .token) ∧
      lattice_join (some .token) none = .ok (some .token)) ∧
    lattice_join (some (.dshaped [2] .f32 false)) (some (.shaped [2] .f32 false [])) =
      .error .typeError :=
  ⟨lattice_join_none_incomparable.1 .token,
    lattice_join_none_incomparable.2 (.dshaped [2] .f32 false) (.shaped [2] .f32 false [])
      (by decide) (by decide)⟩

end JaxModel

namespace PythModel

theorem write_at_end (b t : Chars) :
    SIO.write ⟨b, b.length⟩ t = ⟨b ++ t, (b ++ t).length⟩ := by
  simp [ SIO.write, List.drop_eq_nil_of_le]

theorem writeLinesGo_top (nl : Chars) :
    ∀ (lines : List Chars) (b : Chars),
      writeLinesGo (-1) nl ⟨b, b.length⟩ [] lines =
        ⟨b ++ (lines.map (fun l => l ++ nl)).flatten,
          (b ++ (lines.map (fun l => l ++ nl)).flatten).length⟩ := by
  intro lines
  induction lines with
  | nil => intro b; simp [writeLinesGo]
  | cons l rest ih =>
    intro b
    rw [writeLinesGo]
    have h0 : indentChars (-1) = ([] : Chars) := by decide
    rw [h0]
    rw [write_at_end, write_at_end, write_at_end, write_at_end]
    rw [show (if ([] : Chars).isEmpty then ([] : Chars) else [' ', ' ']) = [] from rfl]
    rw [ih]
    simp [List.append_assoc]

theorem writePara_top (nl : Chars) (p : List (List Chars)) (b : Chars) :
    writePara (-1) nl [] p ⟨b, b.length⟩ =
      ⟨b ++ paraBlockSpec nl p, (b ++ paraBlockSpec nl p).length⟩ := by
  rw [writePara, paraBlockSpec]
  exact writeLinesGo_top nl _ b

theorem intercalate_two (s : Chars) (x y : Chars) (zs : List Chars) :
    List.intercalate s (x :: y :: zs) = x ++ s ++ List.intercalate s (y :: zs) := by
  simp [List.intercalate, List.intersperse]

theorem goNodes_paras (nl : Chars) :
    ∀ (paras : List (List (List Chars))) (b : Chars),
      goNodes nl (paras.map PNode.para) ⟨b, b.length⟩ =
        ⟨b ++ List.intercalate nl (paras.map (paraBlockSpec nl)),
          (b ++ List.intercalate nl (paras.map (paraBlockSpec nl))).length⟩ := by
  intro paras
  induction paras with
  | nil => intro b; simp [goNodes, List.intercalate]
  | cons p rest ih =>
    intro b
    cases rest with
    | nil =>
      rw [List.map_cons, List.map_nil, goNodes, writeNode]
      rw [writePara_top]
      simp [List.intercalate]
    | cons q rest2 =>
      rw [List.map_cons, goNodes]
      rw [writeNode, writePara_top, write_at_end]
      rw [show (b ++ paraBlockSpec nl p ++ nl) =
        ((b ++ paraBlockSpec nl p ++ nl) : Chars) from rfl]
      rw [ih]
      simp only [List.map_cons]
      rw [intercalate_two]
      simp [List.append_assoc]
      simp

/-- C7: on a document whose top-level content is a sequence of paragraphs,
`PlaintextWriter.write` produces the paragraphs' joined text runs split into
lines with one newline after each line, exactly one extra newline between
consecutive paragraphs and none after the last, and returns the stream
repositioned to offset 0. -/
theorem plaintextWriter_write_shape (nl : Chars) (paras : List (List (List Chars))) :
    plaintextWrite (paras.map PNode.para) nl = ⟨plaintextSpec nl paras, 0⟩ := by
  rw [plaintextWrite]
  rw [show SIO.fresh = (⟨[], ([] : Chars).length⟩ : SIO) from rfl]
  rw [goNodes_paras]
  simp [ SIO.truncate, SIO.seek0, plaintextSpec]

end PythModel

namespace PythModel

theorem convertList_eq_map : ∀ l : List PyV, convertList l = l.map convertV
  | [] => rfl
  | v :: vs => by rw [convertList, List.map_cons, convertList_eq_map vs]

/-- C8 counterexample: a `T` (Text) markup object containing a `P` markup
object.  `PythonReader.read` keeps the inner `P` builder unconverted because
`T.toPyth` does not convert its children, while the claim's recursive
conversion would turn it into a `Paragraph` node. -/
theorem pythonReader_T_child_unconverted :
    pythonRead [.builder .T [] [.builder .P [] []]] =
      [.node .T [] [.builder .P [] []]] ∧
    convertSpecList [.builder .T [] [.builder .P [] []]] =
      [.node .T [] [.node .P [] []]] ∧
    ([PyV.node .T [] [.builder .P [] []]] : List PyV) ≠
      [.node .T [] [.node .P [] []]] := by
  refine ⟨rfl, rfl, ?_⟩
  intro h
  simp at h

/-- C8 (amended): `PythonReader.read(source)` returns a `Document` whose
content has the same length as `source`; its i-th element is
`source[i].toPyth()` when `source[i]` is a markup object and `source[i]`
itself otherwise, where `toPyth` converts children recursively except on `T`
(Text) objects, whose stored content is kept as is. -/
theorem pythonReader_read_eq (source : List PyV) :
    (pythonRead source).length = source.length ∧
    (∀ i, i < source.length →
      (pythonRead source).get? i = (source.get? i).map convertV) ∧
    (∀ pr c, convertV (.builder .T pr c) = .node .T pr c) ∧
    (∀ (k : MK) pr c, k ≠ .T → convertV (.builder k pr c) = .node k pr (convertList c)) ∧
    (∀ s, convertV (.str s) = .str s) ∧
    (∀ n, convertV (.int n) = .int n) ∧
    (∀ k pr c, convertV (.node k pr c) = .node k pr c) := by
  refine ⟨?_, ?_, fun pr c => rfl, ?_, fun s => rfl, fun n => rfl, fun k pr c => rfl⟩
  · rw [pythonRead, convertList_eq_map, List.length_map]
  · intro i _
    rw [pythonRead, convertList_eq_map, List.get?_map]
  · intro k pr c hk
    cases k with
    | T => exact absurd rfl hk
    | P => rfl
    | LE => rfl
    | L => rfl

/-- Witness for C8 at a two-element source: a plain int passes through and a
`P` builder is converted with its children. -/
theorem pythonReader_read_eq_witness :
    (pythonRead [PyV.int 3, .builder .P [] [.str ['a']]]).length =
      ([PyV.int 3, .builder .P [] [.str ['a']]] : List PyV).length ∧
    (pythonRead [PyV.int 3, .builder .P [] [.str ['a']]]).get? 1 =
      (([PyV.int 3, .builder .P [] [.str ['a']]] : List PyV).get? 1).map convertV ∧
    convertV (.builder .P [] [.str ['a']]) = .node .P [] (convertList [.str ['a']]) := by
  have h := pythonReader_read_eq [PyV.int 3, .builder .P [] [.str ['a']]]
  exact ⟨h.1, h.2.1 1 (by decide), h.2.2.2.1 .P [] [.str ['a']] (by intro hc; cases hc)⟩

/-- C10 counterexample: indexing a builder with the tuple `(0,)` does not
append `0` to the content — the int element is treated as an index lookup
whose result is discarded, so the content is unchanged, contradicting the
claim that every element of a tuple argument is appended. -/
theorem getitem_int_in_tuple :
    getitem .P [] [.str ['a']] (.seq [.idx 0]) = .ok (.builder .P [] [.str ['a']]) ∧
    (PyV.builder .P [] [.str ['a']]) ≠ .builder .P [] [.str ['a'], .int 0] := by
  constructor
  · rfl
  · intro h
    simp at h

/-- C10 (amended): `_PythonBase.__getitem__` dispatches on the argument type:
an int returns `self.content[item]` (with Python index semantics, not
`self`); a tuple or list applies the same bracket rule to each element in
order — int elements index and their results are discarded, nested
tuples/lists recurse, and any other element is appended — returning `self`;
any other item is appended to the content and `self` is returned. -/
theorem getitem_cases (k : MK) (pr : Props) (content : List PyV) :
    (∀ i : Int, getitem k pr content (.idx i) = pyIndex content i) ∧
    (∀ items : List Item, getitem k pr content (.seq items) =
      (getitemSeq content items).map (fun c' => PyV.builder k pr c')) ∧
    (∀ v : PyV, getitem k pr content (.other v) = .ok (.builder k pr (content ++ [v]))) ∧
    (∀ (c : List PyV) (i : Int), getitemStep c (.idx i) = (pyIndex c i).map (fun _ => c)) ∧
    (∀ (c : List PyV) (items : List Item), getitemStep c (.seq items) = getitemSeq c items) ∧
    (∀ (c : List PyV) (v : PyV), getitemStep c (.other v) = .ok (c ++ [v])) ∧
    (∀ c : List PyV, getitemSeq c [] = .ok c) ∧
    (∀ (c : List PyV) (it : Item) (rest : List Item),
      getitemSeq c (it :: rest) =
        match getitemStep c it with
        | .error e => .error e
        | .ok c' => getitemSeq c' rest) :=
  ⟨fun _ => rfl, fun _ => rfl, fun _ => rfl, fun _ _ => rfl, fun _ _ => rfl,
    fun _ _ => rfl, fun _ => rfl, fun _ _ _ => rfl⟩

end PythModel
